import Mathlib

/-!
Verification of the license-header normalizer (scripts/updateLicense.py).

The script reads a file into a list of lines, scans the first 5 lines for a
copyright notice, and inserts a full license header (when no notice is found)
or a single copyright line (when a notice of a different holder is found),
writing the file back only when a change was computed.

The embedding below models:
  * a file line as a list of characters (a Python str),
  * the line list produced by reading a file,
  * the regex search for the pattern `Copyright \(c\) (\d+)` compiled with
    re.I (case-insensitive folding of both pattern and subject),
  * the derived header template LICENSE_BLOB_LINES_GO,
  * the helper `replace` including its two failure modes: `lines[0]` on an
    empty list raises IndexError, and `['\n'] + header_lines` raises
    TypeError when `header_lines` is a str rather than a list,
  * the Python semantics of `lines[0:0] = s` for a str s: the string is
    iterated, splicing its characters one by one as 1-character strings
    (the written file content is their concatenation),
  * `update_go_license`, returning the final line list together with the
    `changed` flag (the file is rewritten and its name printed exactly when
    the flag is true), or the uncaught Python exception.

The current year is passed as an explicit parameter `y`: the script computes
it once at process start (CURRENT_YEAR).
-/

namespace UpdateLicense

/-- A single line of a file, as read by `list(f)`: a Python string. -/
abbrev Line := List Char

/-- Python `str.strip` whitespace class (ASCII subset actually occurring in
the license text and in source files). -/
def isPySpace (c : Char) : Bool :=
  c = ' ' || c = '\t' || c = '\n' || c = '\r' || c = '\x0b' || c = '\x0c'

/-- Leading-whitespace strip (the leading half of Python `str.strip`). -/
def lstripL (l : List Char) : List Char := l.dropWhile isPySpace

/-- Trailing-whitespace strip (the trailing half of Python `str.strip`,
also Python `str.rstrip`). -/
def rstripL (l : List Char) : List Char :=
  (l.reverse.dropWhile isPySpace).reverse

/-- Python `str.strip`: remove leading and trailing whitespace. -/
def stripL (l : List Char) : List Char := rstripL (lstripL l)

/-- `'%d' % y`: the decimal rendering of the year. -/
def yearStr (y : Nat) : List Char := (Nat.repr y).toList

/-- `LICENSE_BLOB.split('\n')`: the raw license text lines, with the year
interpolated into the first line. -/
def licenseBlobLines (y : Nat) : List (List Char) :=
  [ "Copyright (c) ".toList ++ yearStr y ++ " The Jaeger Authors.".toList,
    [],
    "Licensed under the Apache License, Version 2.0 (the \"License\");".toList,
    "you may not use this file except in compliance with the License.".toList,
    "You may obtain a copy of the License at".toList,
    [],
    "http://www.apache.org/licenses/LICENSE-2.0".toList,
    [],
    "Unless required by applicable law or agreed to in writing, software".toList,
    "distributed under the License is distributed on an \"AS IS\" BASIS,".toList,
    "WITHOUT WARRANTIES OR CONDITIONS OF ANY KIND, either express or implied.".toList,
    "See the License for the specific language governing permissions and".toList,
    "limitations under the License.".toList ]

/-- `LICENSE_BLOB_LINES_GO = [('// ' + l).strip() + '\n' for l in
LICENSE_BLOB.split('\n')]`. -/
def LICENSE_BLOB_LINES_GO (y : Nat) : List Line :=
  (licenseBlobLines y).map (fun l => stripL ("// ".toList ++ l) ++ ['\n'])

/-- The literal characters of the regex `Copyright \(c\) `, lower-cased for
the case-insensitive comparison (re.I folds both sides). -/
def copyrightPat : List Char := "copyright (c) ".toList

/-- Match a literal pattern case-insensitively at the head of the input,
returning the remaining input on success. -/
def ciMatchPat : List Char → List Char → Option (List Char)
  | [], rest => some rest
  | _ :: _, [] => none
  | p :: ps, c :: cs => if c.toLower = p.toLower then ciMatchPat ps cs else none

/-- `int(...)` on a run of decimal digit characters. -/
def parseDigits (ds : List Char) : Nat :=
  ds.foldl (fun n c => 10 * n + (c.toNat - '0'.toNat)) 0

/-- Try `COPYRIGHT_RE` anchored at this position: the literal
`Copyright \(c\) ` (case-insensitive) followed by the greedy group `(\d+)`
(at least one digit). Returns the captured year. -/
def matchCopyrightAt (l : List Char) : Option Nat :=
  match ciMatchPat copyrightPat l with
  | none => none
  | some rest =>
      let ds := rest.takeWhile Char.isDigit
      if ds.isEmpty then none else some (parseDigits ds)

/-- `COPYRIGHT_RE.search(line)`: leftmost match anywhere in the line. -/
def searchCopyright : List Char → Option Nat
  | [] => none
  | c :: cs =>
      match matchCopyrightAt (c :: cs) with
      | some yr => some yr
      | none => searchCopyright cs

/-- Does `pat` occur at the head of the input? -/
def startsWith : List Char → List Char → Bool
  | [], _ => true
  | _ :: _, [] => false
  | p :: ps, c :: cs => p = c && startsWith ps cs

/-- Python substring containment `pat in l`. -/
def containsSub (pat : List Char) : List Char → Bool
  | [] => pat.isEmpty
  | c :: cs => startsWith pat (c :: cs) || containsSub pat cs

/-- The holder token `'Jaeger'`. -/
def jaegerTok : List Char := "Jaeger".toList

/-- The generated-file marker token `'Code generated by'`. -/
def genMarker : List Char := "Code generated by".toList

/-- The scan loop `for i, line in enumerate(lines[:5])`: the first line with
a `COPYRIGHT_RE` match determines `found` and `jaeger`.  The year comparison
is kept from the source; the year-update path under it is commented out
there, so both arms break out of the loop with the same state and `changed`
is never set by the loop. -/
def scanLoop (y : Nat) : List Line → Bool × Bool
  | [] => (false, false)
  | l :: ls =>
      match searchCopyright l with
      | none => scanLoop y ls
      | some yr =>
          if yr = y then (true, containsSub jaegerTok l)
          else (true, containsSub jaegerTok l)

/-- Uncaught Python exceptions reachable inside `update_go_license`. -/
inductive PyErr where
  | indexError
  | typeError
deriving DecidableEq

instance {ε α : Type} [DecidableEq ε] [DecidableEq α] :
    DecidableEq (Except ε α) := fun a b =>
  match a, b with
  | Except.error x, Except.error x' =>
      if h : x = x' then isTrue (by rw [h])
      else isFalse (by intro hc; injection hc; contradiction)
  | Except.error _, Except.ok _ => isFalse (by intro hc; injection hc)
  | Except.ok _, Except.error _ => isFalse (by intro hc; injection hc)
  | Except.ok v, Except.ok v' =>
      if h : v = v' then isTrue (by rw [h])
      else isFalse (by intro hc; injection hc; contradiction)

/-- The argument passed to the helper `replace`: the source calls it once
with a list of lines (`LICENSE_BLOB_LINES_GO + ['\n']`) and once with a bare
string (`LICENSE_BLOB_LINES_GO[0]`). -/
inductive Header where
  | strH (s : List Char)
  | listH (ls : List Line)

/-- Iterating the header object, as slice assignment `lines[0:0] = h` does:
a list yields its lines; a string yields its characters as 1-character
strings. -/
def headerAsLines : Header → List Line
  | Header.strH s => s.map (fun c => [c])
  | Header.listH ls => ls

/-- The nested helper `replace(header_lines)`:

    def replace(header_lines):
        if 'Code generated by' in lines[0]:
            lines[1:1] = ['\n'] + header_lines
        else:
            lines[0:0] = header_lines

`lines[0]` raises IndexError on an empty list; `['\n'] + header_lines`
raises TypeError when `header_lines` is a str. -/
def replace (hdr : Header) (lines : List Line) : Except PyErr (List Line) :=
  match lines with
  | [] => Except.error PyErr.indexError
  | l0 :: rest =>
      if containsSub genMarker l0 then
        match hdr with
        | Header.strH _ => Except.error PyErr.typeError
        | Header.listH hs => Except.ok (l0 :: ['\n'] :: (hs ++ rest))
      else
        Except.ok (headerAsLines hdr ++ (l0 :: rest))

/-- Python `ls[0]` on the (statically nonempty) template list. -/
def headLine (ls : List Line) : Line := ls.headD []

/-- `update_go_license`, on the line list read from the file.  Returns the
final line list together with the `changed` flag: the file is rewritten
in place and its path printed exactly when the flag is true. -/
def update_go_license (y : Nat) (lines : List Line) :
    Except PyErr (List Line × Bool) :=
  let sc := scanLoop y (lines.take 5)
  if sc.1 = false then
    match replace (Header.listH (LICENSE_BLOB_LINES_GO y ++ [['\n']])) lines with
    | Except.error e => Except.error e
    | Except.ok ls => Except.ok (ls, true)
  else if sc.2 = false then
    match replace (Header.strH (headLine (LICENSE_BLOB_LINES_GO y))) lines with
    | Except.error e => Except.error e
    | Except.ok ls => Except.ok (ls, true)
  else
    Except.ok (lines, false)

/-- The first line among the first 5 with a `COPYRIGHT_RE` match. -/
def firstCopyrightLine (ls : List Line) : Option Line :=
  (ls.take 5).find? (fun l => (searchCopyright l).isSome)

/-- Splitting a byte content into lines as Python's `list(f)` does: each
line keeps its terminating newline; a final segment without a newline is a
final line.  The accumulator holds the current (reversed) partial line. -/
def splitLinesAux : List Char → List Char → List Line
  | acc, [] => if acc.isEmpty then [] else [acc.reverse]
  | acc, c :: cs =>
      if c = '\n' then (acc.reverse ++ ['\n']) :: splitLinesAux [] cs
      else splitLinesAux (c :: acc) cs

/-- The line list read from a file whose byte content is `s`. -/
def splitLines (s : List Char) : List Line := splitLinesAux [] s

/-! ### The scan loop, characterized by the first matching line -/

theorem scanLoop_cons_none (y : Nat) (l : Line) (ls : List Line)
    (h : searchCopyright l = none) : scanLoop y (l :: ls) = scanLoop y ls := by
  simp [scanLoop, h]

theorem scanLoop_cons_some (y yr : Nat) (l : Line) (ls : List Line)
    (h : searchCopyright l = some yr) :
    scanLoop y (l :: ls) = (true, containsSub jaegerTok l) := by
  simp [scanLoop, h]

theorem scanLoop_eq_find (y : Nat) (ms : List Line) :
    scanLoop y ms =
      match ms.find? (fun l => (searchCopyright l).isSome) with
      | none => (false, false)
      | some l => (true, containsSub jaegerTok l) := by
  induction ms with
  | nil => rfl
  | cons l ls ih =>
      cases h : searchCopyright l with
      | none =>
          rw [scanLoop_cons_none y l ls h, ih, List.find?_cons_of_neg]
          simp [h]
      | some yr =>
          rw [scanLoop_cons_some y yr l ls h, List.find?_cons_of_pos]
          simp [h]

theorem scanLoop_of_first (y : Nat) (ls : List Line) (l : Line)
    (h : firstCopyrightLine ls = some l) :
    scanLoop y (ls.take 5) = (true, containsSub jaegerTok l) := by
  rw [scanLoop_eq_find]
  rw [firstCopyrightLine] at h
  rw [h]

theorem scanLoop_of_nomatch (y : Nat) (ls : List Line)
    (h : firstCopyrightLine ls = none) :
    scanLoop y (ls.take 5) = (false, false) := by
  rw [scanLoop_eq_find]
  rw [firstCopyrightLine] at h
  rw [h]

/-! ### Case lemmas for update_go_license -/

theorem update_of_noop (y : Nat) (lines : List Line)
    (h : scanLoop y (lines.take 5) = (true, true)) :
    update_go_license y lines = Except.ok (lines, false) := by
  simp [update_go_license, h]

theorem update_nil (y : Nat) :
    update_go_license y [] = Except.error PyErr.indexError := rfl

theorem update_of_full_nomarker (y : Nat) (l0 : Line) (rest : List Line)
    (hsc : (scanLoop y ((l0 :: rest).take 5)).1 = false)
    (hm : containsSub genMarker l0 = false) :
    update_go_license y (l0 :: rest) =
      Except.ok ((LICENSE_BLOB_LINES_GO y ++ [['\n']]) ++ (l0 :: rest), true) := by
  simp only [List.take_succ_cons] at hsc
  simp [update_go_license, hsc, replace, hm, headerAsLines]

theorem update_of_full_marker (y : Nat) (l0 : Line) (rest : List Line)
    (hsc : (scanLoop y ((l0 :: rest).take 5)).1 = false)
    (hm : containsSub genMarker l0 = true) :
    update_go_license y (l0 :: rest) =
      Except.ok (l0 :: ['\n'] :: ((LICENSE_BLOB_LINES_GO y ++ [['\n']]) ++ rest), true) := by
  simp only [List.take_succ_cons] at hsc
  simp [update_go_license, hsc, replace, hm]

theorem update_of_single_nomarker (y : Nat) (l0 : Line) (rest : List Line)
    (hsc : scanLoop y ((l0 :: rest).take 5) = (true, false))
    (hm : containsSub genMarker l0 = false) :
    update_go_license y (l0 :: rest) =
      Except.ok ((headLine (LICENSE_BLOB_LINES_GO y)).map (fun c => [c]) ++ (l0 :: rest),
        true) := by
  simp only [List.take_succ_cons] at hsc
  simp [update_go_license, hsc, replace, hm, headerAsLines]

theorem update_of_single_marker (y : Nat) (l0 : Line) (rest : List Line)
    (hsc : scanLoop y ((l0 :: rest).take 5) = (true, false))
    (hm : containsSub genMarker l0 = true) :
    update_go_license y (l0 :: rest) = Except.error PyErr.typeError := by
  simp only [List.take_succ_cons] at hsc
  simp [update_go_license, hsc, replace, hm]

/-! ### Generic list helpers -/

theorem flatten_map_singleton (l : List Char) :
    (l.map (fun c => [c])).flatten = l := by
  induction l with
  | nil => rfl
  | cons c cs ih => simp [ih]

/-! ### Substring containment -/

theorem containsSub_cons_of (pat : List Char) (c : Char) (l : List Char)
    (h : containsSub pat l = true) : containsSub pat (c :: l) = true := by
  simp [containsSub, h]

theorem containsSub_append_of (pat xs l : List Char)
    (h : containsSub pat l = true) : containsSub pat (xs ++ l) = true := by
  induction xs with
  | nil => simpa using h
  | cons c cs ih => exact containsSub_cons_of pat c (cs ++ l) ih

/-! ### The decimal rendering of the year: nonempty, all digits -/

theorem digitChar_isDigit : ∀ m, m < 10 → (Nat.digitChar m).isDigit = true := by
  decide

theorem toDigitsCore_all_digit :
    ∀ (fuel n : Nat) (ds : List Char), (∀ c ∈ ds, c.isDigit = true) →
      ∀ c ∈ Nat.toDigitsCore 10 fuel n ds, c.isDigit = true := by
  intro fuel
  induction fuel with
  | zero =>
      intro n ds hds c hc
      exact hds c hc
  | succ f ih =>
      intro n ds hds c hc
      have hd : (Nat.digitChar (n % 10)).isDigit = true :=
        digitChar_isDigit _ (Nat.mod_lt _ (by norm_num))
      simp only [Nat.toDigitsCore] at hc
      by_cases h0 : n / 10 = 0
      · rw [if_pos h0] at hc
        rcases List.mem_cons.mp hc with h | h
        · rw [h]; exact hd
        · exact hds c h
      · rw [if_neg h0] at hc
        refine ih (n / 10) (Nat.digitChar (n % 10) :: ds) ?_ c hc
        intro a ha
        rcases List.mem_cons.mp ha with h | h
        · rw [h]; exact hd
        · exact hds a h

theorem toDigitsCore_length_le :
    ∀ (fuel n : Nat) (ds : List Char),
      ds.length ≤ (Nat.toDigitsCore 10 fuel n ds).length := by
  intro fuel
  induction fuel with
  | zero => intro n ds; exact Nat.le_refl _
  | succ f ih =>
      intro n ds
      simp only [Nat.toDigitsCore]
      by_cases h0 : n / 10 = 0
      · rw [if_pos h0]; exact Nat.le_succ _
      · rw [if_neg h0]
        exact Nat.le_trans (Nat.le_succ _) (ih (n / 10) (Nat.digitChar (n % 10) :: ds))

theorem toDigitsCore_ne_nil (fuel n : Nat) (ds : List Char) :
    Nat.toDigitsCore 10 (fuel + 1) n ds ≠ [] := by
  intro h
  simp only [Nat.toDigitsCore] at h
  by_cases h0 : n / 10 = 0
  · rw [if_pos h0] at h
    exact List.cons_ne_nil _ _ h
  · rw [if_neg h0] at h
    have hl := toDigitsCore_length_le fuel (n / 10) (Nat.digitChar (n % 10) :: ds)
    rw [h] at hl
    simp at hl

theorem yearStr_eq (y : Nat) : yearStr y = Nat.toDigitsCore 10 (y + 1) y [] := rfl

theorem yearStr_all_digit (y : Nat) : ∀ c ∈ yearStr y, c.isDigit = true := by
  rw [yearStr_eq]
  exact toDigitsCore_all_digit (y + 1) y [] (by simp)

theorem yearStr_ne_nil (y : Nat) : yearStr y ≠ [] := by
  rw [yearStr_eq]
  exact toDigitsCore_ne_nil y y []

theorem isDigit_ne_newline (c : Char) (h : c.isDigit = true) : c ≠ '\n' := by
  intro he
  rw [he] at h
  exact absurd h (by decide)

/-! ### The copyright regex search -/

theorem copyrightPat_chars :
    copyrightPat = ['c', 'o', 'p', 'y', 'r', 'i', 'g', 'h', 't', ' ', '(', 'c', ')', ' '] := by
  decide

theorem matchCopyrightAt_cons_none (c : Char) (cs : List Char)
    (h : ¬ c.toLower = 'c') : matchCopyrightAt (c :: cs) = none := by
  simp [matchCopyrightAt, copyrightPat_chars, ciMatchPat, h]

theorem searchCopyright_cons_of_none (c : Char) (cs : List Char)
    (h : matchCopyrightAt (c :: cs) = none) :
    searchCopyright (c :: cs) = searchCopyright cs := by
  simp [searchCopyright, h]

theorem searchCopyright_cons_of_some (c : Char) (cs : List Char) (yr : Nat)
    (h : matchCopyrightAt (c :: cs) = some yr) :
    searchCopyright (c :: cs) = some yr := by
  simp [searchCopyright, h]

theorem ciMatchPat_copyright (rest : List Char) :
    ciMatchPat copyrightPat
      ('C' :: 'o' :: 'p' :: 'y' :: 'r' :: 'i' :: 'g' :: 'h' :: 't' :: ' ' :: '(' :: 'c' :: ')' :: ' ' :: rest) =
      some rest := rfl

theorem matchCopyrightAt_copyright (d : Char) (tail : List Char) (hd : d.isDigit = true) :
    matchCopyrightAt
      ('C' :: 'o' :: 'p' :: 'y' :: 'r' :: 'i' :: 'g' :: 'h' :: 't' :: ' ' :: '(' :: 'c' :: ')' :: ' ' :: d :: tail) =
      some (parseDigits ((d :: tail).takeWhile Char.isDigit)) := by
  simp only [matchCopyrightAt, ciMatchPat_copyright, List.takeWhile_cons, hd]
  simp [List.isEmpty]

/-! ### The first template line -/

/-- The first line of the derived template: the line `replace` receives on
the single-line path.  Stated in the association produced by the list
comprehension; see headLine_LBLG. -/
def goHead (y : Nat) : Line :=
  ("// ".toList ++
    ("Copyright (c) ".toList ++ yearStr y ++ " The Jaeger Authors.".toList)) ++ ['\n']

theorem lstripL_go (t : List Char) : lstripL ('/' :: t) = '/' :: t := by
  simp [lstripL, List.dropWhile_cons, isPySpace]

theorem rstripL_append_of_last (w z : List Char) (c : Char) (zs : List Char)
    (hrev : z.reverse = c :: zs) (hc : isPySpace c = false) :
    rstripL (w ++ z) = w ++ z := by
  rw [rstripL, List.reverse_append, hrev, List.cons_append, List.dropWhile_cons,
    if_neg (by simp [hc]), ← List.cons_append, ← hrev, ← List.reverse_append,
    List.reverse_reverse]

theorem stripL_go_line0 (y : Nat) :
    stripL ("// ".toList ++
        ("Copyright (c) ".toList ++ yearStr y ++ " The Jaeger Authors.".toList)) =
      "// ".toList ++
        ("Copyright (c) ".toList ++ yearStr y ++ " The Jaeger Authors.".toList) := by
  have h1 : lstripL ("// ".toList ++
      ("Copyright (c) ".toList ++ yearStr y ++ " The Jaeger Authors.".toList)) =
      "// ".toList ++
        ("Copyright (c) ".toList ++ yearStr y ++ " The Jaeger Authors.".toList) :=
    lstripL_go _
  show rstripL (lstripL ("// ".toList ++
      ("Copyright (c) ".toList ++ yearStr y ++ " The Jaeger Authors.".toList))) =
    "// ".toList ++ ("Copyright (c) ".toList ++ yearStr y ++ " The Jaeger Authors.".toList)
  rw [h1]
  exact (rstripL_append_of_last
    ("// ".toList ++ ("Copyright (c) ".toList ++ yearStr y))
    (" The Jaeger Authors.".toList) '.' ("srohtuA regeaJ ehT ".toList)
    (by decide) (by decide) : _)

theorem headLine_LBLG (y : Nat) : headLine (LICENSE_BLOB_LINES_GO y) = goHead y := by
  show stripL ("// ".toList ++
      ("Copyright (c) ".toList ++ yearStr y ++ " The Jaeger Authors.".toList)) ++ ['\n'] =
    goHead y
  rw [stripL_go_line0, goHead]

theorem searchCopyright_goHead (y : Nat) :
    ∃ n, searchCopyright (goHead y) = some n := by
  obtain ⟨d, m', hm⟩ := List.exists_cons_of_ne_nil (yearStr_ne_nil y)
  have hd : d.isDigit = true := yearStr_all_digit y d (by rw [hm]; exact List.mem_cons_self _ _)
  refine ⟨parseDigits ((d :: ((m' ++ " The Jaeger Authors.".toList) ++ ['\n'])).takeWhile
    Char.isDigit), ?_⟩
  rw [show goHead y = '/' :: '/' :: ' ' ::
      (("Copyright (c) ".toList ++ yearStr y ++ " The Jaeger Authors.".toList) ++ ['\n'])
    from rfl]
  rw [searchCopyright_cons_of_none _ _ (matchCopyrightAt_cons_none _ _ (by decide))]
  rw [searchCopyright_cons_of_none _ _ (matchCopyrightAt_cons_none _ _ (by decide))]
  rw [searchCopyright_cons_of_none _ _ (matchCopyrightAt_cons_none _ _ (by decide))]
  rw [hm]
  rw [show (("Copyright (c) ".toList ++ (d :: m') ++ " The Jaeger Authors.".toList) ++ ['\n']) =
      'C' :: 'o' :: 'p' :: 'y' :: 'r' :: 'i' :: 'g' :: 'h' :: 't' :: ' ' :: '(' :: 'c' :: ')' :: ' ' ::
        d :: ((m' ++ " The Jaeger Authors.".toList) ++ ['\n']) from rfl]
  rw [searchCopyright_cons_of_some _ _ _ (matchCopyrightAt_copyright d _ hd)]

theorem jaeger_goHead (y : Nat) : containsSub jaegerTok (goHead y) = true := by
  rw [goHead]
  simp only [List.append_assoc]
  exact containsSub_append_of _ _ _ (containsSub_append_of _ _ _
    (containsSub_append_of _ _ _ (by decide)))

theorem searchCopyright_newline : searchCopyright ['\n'] = none := by decide

theorem scanLoop_false_inv (y : Nat) (l0 : Line) (ls : List Line) (b : Bool)
    (h : scanLoop y (l0 :: ls) = (false, b)) :
    searchCopyright l0 = none ∧ scanLoop y ls = (false, b) := by
  cases hm : searchCopyright l0 with
  | none => exact ⟨rfl, by rw [← scanLoop_cons_none y l0 ls hm, h]⟩
  | some yr =>
      rw [scanLoop_cons_some y yr l0 ls hm] at h
      exact absurd h (by simp)

/-! ### splitLines: reading a file back -/

theorem splitLinesAux_flatten :
    ∀ (s acc : List Char), (splitLinesAux acc s).flatten = acc.reverse ++ s := by
  intro s
  induction s with
  | nil =>
      intro acc
      by_cases h : acc.isEmpty
      · simp [splitLinesAux, h, List.isEmpty_iff.mp h]
      · simp [splitLinesAux, h]
  | cons c cs ih =>
      intro acc
      by_cases h : c = '\n'
      · subst h
        simp [splitLinesAux, ih]
      · simp [splitLinesAux, h, ih]

theorem splitLines_flatten (s : List Char) : (splitLines s).flatten = s := by
  simpa using splitLinesAux_flatten s []

theorem splitLinesAux_append_core :
    ∀ (core : List Char), '\n' ∉ core → ∀ (acc rest : List Char),
      splitLinesAux acc (core ++ '\n' :: rest) =
        ((acc.reverse ++ core) ++ ['\n']) :: splitLinesAux [] rest := by
  intro core
  induction core with
  | nil => intro _ acc rest; simp [splitLinesAux]
  | cons a as ih =>
      intro h acc rest
      have ha : ¬ a = '\n' := fun he => h (by rw [he]; exact List.mem_cons_self _ _)
      rw [List.cons_append]
      show splitLinesAux acc (a :: (as ++ '\n' :: rest)) = _
      rw [show splitLinesAux acc (a :: (as ++ '\n' :: rest)) =
          splitLinesAux (a :: acc) (as ++ '\n' :: rest) from by
        simp [splitLinesAux, ha]]
      rw [ih (fun hm => h (List.mem_cons_of_mem _ hm)) (a :: acc) rest]
      simp

/-- A proper line: newline-terminated, with no interior newline. -/
def ProperLine (l : Line) : Prop := ∃ core, l = core ++ ['\n'] ∧ '\n' ∉ core

theorem splitLines_proper_cons (core : List Char) (h : '\n' ∉ core) (rest : List Char) :
    splitLines ((core ++ ['\n']) ++ rest) = (core ++ ['\n']) :: splitLines rest := by
  rw [splitLines, List.append_assoc, List.singleton_append,
    splitLinesAux_append_core core h [] rest]
  simp [splitLines]

theorem splitLines_flatten_proper :
    ∀ (hs : List Line), (∀ l ∈ hs, ProperLine l) → ∀ rest : List Char,
      splitLines (hs.flatten ++ rest) = hs ++ splitLines rest := by
  intro hs
  induction hs with
  | nil => intro _ rest; simp
  | cons l ls ih =>
      intro hp rest
      obtain ⟨core, hl, hc⟩ := hp l (List.mem_cons_self _ _)
      rw [List.flatten_cons, List.append_assoc, hl,
        splitLines_proper_cons core hc (ls.flatten ++ rest),
        ih (fun a ha => hp a (List.mem_cons_of_mem _ ha)) rest]
      rfl

theorem splitLinesAux_shape :
    ∀ (s acc : List Char), '\n' ∉ acc → ∀ (l0 : Line) (ls : List Line),
      splitLinesAux acc s = l0 :: ls →
      (ProperLine l0 ∨ ('\n' ∉ l0 ∧ ls = [])) ∧ ∃ c', ls = splitLines c' := by
  intro s
  induction s with
  | nil =>
      intro acc hacc l0 ls h
      by_cases he : acc.isEmpty
      · simp [splitLinesAux, he] at h
      · simp only [splitLinesAux, if_neg he] at h
        obtain ⟨h1, h2⟩ := List.cons_eq_cons.mp h
        refine ⟨Or.inr ⟨?_, h2.symm⟩, [], by simp [h2.symm, splitLines, splitLinesAux]⟩
        rw [← h1]
        simpa using hacc
  | cons c cs ih =>
      intro acc hacc l0 ls h
      by_cases hc : c = '\n'
      · subst hc
        simp only [splitLinesAux, if_pos rfl] at h
        obtain ⟨h1, h2⟩ := List.cons_eq_cons.mp h
        refine ⟨Or.inl ⟨acc.reverse, h1.symm, by simpa using hacc⟩, cs, h2.symm⟩
      · simp only [splitLinesAux, if_neg hc] at h
        refine ih (c :: acc) ?_ l0 ls h
        intro hm
        rcases List.mem_cons.mp hm with hm | hm
        · exact hc hm.symm
        · exact hacc hm

theorem splitLines_shape (s : List Char) (l0 : Line) (ls : List Line)
    (h : splitLines s = l0 :: ls) :
    (ProperLine l0 ∨ ('\n' ∉ l0 ∧ ls = [])) ∧ ls = splitLines ls.flatten := by
  obtain ⟨hshape, c', hc'⟩ := splitLinesAux_shape s [] (by simp) l0 ls h
  exact ⟨hshape, by rw [hc', splitLines_flatten c']⟩

/-! ### Appending a newline does not affect the copyright search -/

theorem ciMatchPat_append_newline :
    ∀ (p xs : List Char), (∀ a ∈ p, ¬ a.toLower = '\n') →
      ciMatchPat p (xs ++ ['\n']) =
        Option.map (fun r => r ++ ['\n']) (ciMatchPat p xs) := by
  intro p
  induction p with
  | nil => intro xs _; rfl
  | cons q qs ih =>
      intro xs hp
      cases xs with
      | nil =>
          have hq : ¬ ('\n').toLower = q.toLower := by
            intro he
            refine hp q (List.mem_cons_self _ _) ?_
            rw [← he]
            decide
          have hq2 : ¬ ('\n' = q.toLower) := by
            intro he
            refine hq ?_
            rw [show ('\n').toLower = '\n' from by decide]
            exact he
          simp [ciMatchPat, hq, hq2]
      | cons x xs' =>
          rw [List.cons_append]
          show (if x.toLower = q.toLower then ciMatchPat qs (xs' ++ ['\n']) else none) = _
          by_cases hx : x.toLower = q.toLower
          · rw [if_pos hx, ih xs' (fun a ha => hp a (List.mem_cons_of_mem _ ha))]
            rw [show ciMatchPat (q :: qs) (x :: xs') =
                (if x.toLower = q.toLower then ciMatchPat qs xs' else none) from rfl,
              if_pos hx]
          · rw [if_neg hx,
              show ciMatchPat (q :: qs) (x :: xs') =
                (if x.toLower = q.toLower then ciMatchPat qs xs' else none) from rfl,
              if_neg hx]
            rfl

theorem takeWhile_digit_append_newline (xs : List Char) :
    (xs ++ ['\n']).takeWhile Char.isDigit = xs.takeWhile Char.isDigit := by
  induction xs with
  | nil => decide
  | cons x xs' ih =>
      rw [List.cons_append, List.takeWhile_cons, List.takeWhile_cons]
      by_cases hx : x.isDigit = true
      · rw [if_pos hx, if_pos hx, ih]
      · rw [if_neg hx, if_neg hx]

theorem matchCopyrightAt_append_newline (xs : List Char) :
    matchCopyrightAt (xs ++ ['\n']) = matchCopyrightAt xs := by
  have hpat : ∀ a ∈ copyrightPat, ¬ a.toLower = '\n' := by
    rw [copyrightPat_chars]
    decide
  simp only [matchCopyrightAt, ciMatchPat_append_newline copyrightPat xs hpat]
  cases hm : ciMatchPat copyrightPat xs with
  | none => rfl
  | some r =>
      simp only [Option.map_some']
      rw [takeWhile_digit_append_newline r]

theorem searchCopyright_append_newline (xs : List Char) :
    searchCopyright (xs ++ ['\n']) = searchCopyright xs := by
  induction xs with
  | nil =>
      rw [List.nil_append, searchCopyright_newline]
      rfl
  | cons x xs' ih =>
      have hx := matchCopyrightAt_append_newline (x :: xs')
      rw [List.cons_append]
      cases hm : matchCopyrightAt (x :: xs') with
      | none =>
          have hmm : matchCopyrightAt (x :: (xs' ++ ['\n'])) = none := by
            rw [← List.cons_append, hx, hm]
          rw [searchCopyright_cons_of_none _ _ hmm, searchCopyright_cons_of_none _ _ hm, ih]
      | some yr =>
          have hmm : matchCopyrightAt (x :: (xs' ++ ['\n'])) = some yr := by
            rw [← List.cons_append, hx, hm]
          rw [searchCopyright_cons_of_some _ _ _ hmm, searchCopyright_cons_of_some _ _ _ hm]

/-! ### The explicit form of the derived template -/

/-- The derived template lines after the first, fully evaluated: blank
license lines come out as `//` alone (the comprehension strips the trailing
space of the comment prefix). -/
def goTail : List Line :=
  [ "//\n".toList,
    "// Licensed under the Apache License, Version 2.0 (the \"License\");\n".toList,
    "// you may not use this file except in compliance with the License.\n".toList,
    "// You may obtain a copy of the License at\n".toList,
    "//\n".toList,
    "// http://www.apache.org/licenses/LICENSE-2.0\n".toList,
    "//\n".toList,
    "// Unless required by applicable law or agreed to in writing, software\n".toList,
    "// distributed under the License is distributed on an \"AS IS\" BASIS,\n".toList,
    "// WITHOUT WARRANTIES OR CONDITIONS OF ANY KIND, either express or implied.\n".toList,
    "// See the License for the specific language governing permissions and\n".toList,
    "// limitations under the License.\n".toList ]

theorem LBLG_eq (y : Nat) : LICENSE_BLOB_LINES_GO y = goHead y :: goTail := by
  show (licenseBlobLines y).map _ = _
  simp only [licenseBlobLines, List.map_cons, List.map_nil]
  rw [show stripL ("// ".toList ++
      ("Copyright (c) ".toList ++ yearStr y ++ " The Jaeger Authors.".toList)) ++ ['\n'] =
      goHead y from by rw [stripL_go_line0]; rfl]
  congr 1

theorem properLine_goHead (y : Nat) : ProperLine (goHead y) := by
  refine ⟨"// ".toList ++
    ("Copyright (c) ".toList ++ yearStr y ++ " The Jaeger Authors.".toList), rfl, ?_⟩
  intro hmem
  simp only [List.mem_append] at hmem
  rcases hmem with h | (h | h) | h
  · exact absurd h (by decide)
  · exact absurd h (by decide)
  · exact absurd (yearStr_all_digit y '\n' h) (by decide)
  · exact absurd h (by decide)

theorem properLine_goTail_blank : ∀ l ∈ goTail ++ [['\n']], ProperLine l := by
  intro l hl
  have h : l.dropLast ++ ['\n'] = l ∧ '\n' ∉ l.dropLast := by
    fin_cases hl <;> exact ⟨by decide, by decide⟩
  exact ⟨l.dropLast, h.1.symm, h.2⟩

theorem properLine_header (y : Nat) :
    ∀ l ∈ LICENSE_BLOB_LINES_GO y ++ [['\n']], ProperLine l := by
  intro l hl
  rw [LBLG_eq] at hl
  have h : l = goHead y ∨ l ∈ goTail ∨ l = ['\n'] := by simpa using hl
  rcases h with h | h | h
  · rw [h]; exact properLine_goHead y
  · exact properLine_goTail_blank l (List.mem_append_left _ h)
  · exact properLine_goTail_blank l (by rw [h]; simp)

/-! ### The scan on a freshly normalized file -/

theorem scanLoop_goHead (y : Nat) (t : List Line) :
    scanLoop y ((goHead y :: t).take 5) = (true, true) := by
  obtain ⟨n, hn⟩ := searchCopyright_goHead y
  rw [List.take_succ_cons, scanLoop_cons_some y n _ _ hn, jaeger_goHead]

theorem scanLoop_marker_goHead (y : Nat) (l0 : Line) (t : List Line)
    (h0 : searchCopyright l0 = none) :
    scanLoop y ((l0 :: ['\n'] :: goHead y :: t).take 5) = (true, true) := by
  obtain ⟨n, hn⟩ := searchCopyright_goHead y
  simp only [List.take_succ_cons]
  rw [scanLoop_cons_none y _ _ h0, scanLoop_cons_none y _ _ searchCopyright_newline,
    scanLoop_cons_some y n _ _ hn, jaeger_goHead]

/-- Inversion: every successful run is a no-op, a full-header insertion
(with or without a generated-file marker), or a single-line insertion
without a marker. -/
theorem update_ok_cases (y : Nat) (lines out : List Line) (ch : Bool)
    (h : update_go_license y lines = Except.ok (out, ch)) :
    (scanLoop y (lines.take 5) = (true, true) ∧ out = lines ∧ ch = false) ∨
    (∃ l0 rest, lines = l0 :: rest ∧ (scanLoop y (lines.take 5)).1 = false ∧ ch = true ∧
       ((containsSub genMarker l0 = false ∧
           out = (LICENSE_BLOB_LINES_GO y ++ [['\n']]) ++ lines) ∨
        (containsSub genMarker l0 = true ∧
           out = l0 :: ['\n'] :: ((LICENSE_BLOB_LINES_GO y ++ [['\n']]) ++ rest)))) ∨
    (∃ l0 rest, lines = l0 :: rest ∧ scanLoop y (lines.take 5) = (true, false) ∧ ch = true ∧
       containsSub genMarker l0 = false ∧
       out = (headLine (LICENSE_BLOB_LINES_GO y)).map (fun c => [c]) ++ lines) := by
  cases lines with
  | nil =>
      rw [update_nil] at h
      exact absurd h (by simp)
  | cons l0 rest =>
      cases hsc : scanLoop y ((l0 :: rest).take 5) with
      | mk f j =>
          cases f with
          | false =>
              cases hm : containsSub genMarker l0 with
              | false =>
                  rw [update_of_full_nomarker y l0 rest (by rw [hsc]) hm] at h
                  simp only [Except.ok.injEq, Prod.mk.injEq] at h
                  exact Or.inr (Or.inl ⟨l0, rest, rfl, rfl, h.2.symm,
                    Or.inl ⟨hm, h.1.symm⟩⟩)
              | true =>
                  rw [update_of_full_marker y l0 rest (by rw [hsc]) hm] at h
                  simp only [Except.ok.injEq, Prod.mk.injEq] at h
                  exact Or.inr (Or.inl ⟨l0, rest, rfl, rfl, h.2.symm,
                    Or.inr ⟨hm, h.1.symm⟩⟩)
          | true =>
              cases j with
              | false =>
                  cases hm : containsSub genMarker l0 with
                  | false =>
                      rw [update_of_single_nomarker y l0 rest hsc hm] at h
                      simp only [Except.ok.injEq, Prod.mk.injEq] at h
                      exact Or.inr (Or.inr ⟨l0, rest, rfl, rfl, h.2.symm, hm, h.1.symm⟩)
                  | true =>
                      rw [update_of_single_marker y l0 rest hsc hm] at h
                      exact absurd h (by simp)
              | true =>
                  rw [update_of_noop y (l0 :: rest) hsc] at h
                  simp only [Except.ok.injEq, Prod.mk.injEq] at h
                  exact Or.inl ⟨rfl, h.1.symm, h.2.symm⟩

/-! ### Concrete demonstration inputs -/

def pkgLine : Line := "package foo\n".toList

def acmeCurLine : Line := "// Copyright (c) 2025 Acme Corp\n".toList

def otherCorpLine : Line := "// Copyright (c) 2019 Some Other Corp\n".toList

def jaegerCurLine : Line := "// Copyright (c) 2025 The Jaeger Authors.\n".toList

def jaegerOldLine : Line := "// Copyright (c) 2019 The Jaeger Authors.\n".toList

def genLine : Line := "// Code generated by tool\n".toList

def genAcmeFile : List Line :=
  [genLine, "// Copyright (c) 2019 Acme Corp\n".toList, pkgLine]

/-! ### Claims -/

/-- C10: on an empty input file (zero lines), the no-copyright-match path
calls the insertion helper, whose unguarded `lines[0]` raises an uncaught
IndexError; no header is inserted and the file is never rewritten (the
write happens only after `replace` returns). -/
theorem emptyFile_indexError (y : Nat) :
    update_go_license y [] = Except.error PyErr.indexError := rfl

/-- C1 counterexample: a first-5-lines copyright match showing the current
year (here 2025) but without the holder token.  The claim says the
normalizer is a no-op regardless of holder; in fact the code falls through
to the single-line insertion (the current-year `break` does not prevent
the `not jaeger` branch), splices the first template line and reports the
file changed. -/
theorem currentYear_noHolder_counterexample :
    searchCopyright acmeCurLine = some 2025 ∧
    containsSub jaegerTok acmeCurLine = false ∧
    update_go_license 2025 [acmeCurLine, pkgLine] ≠
      Except.ok ([acmeCurLine, pkgLine], false) ∧
    update_go_license 2025 [acmeCurLine, pkgLine] =
      Except.ok ((goHead 2025).map (fun c => [c]) ++ [acmeCurLine, pkgLine], true) := by
  refine ⟨by decide, by decide, by decide, by decide⟩

/-- C1 (amended): the no-op for a current-year match holds only when the
matched line also contains the holder token: in that case the file is left
byte-for-byte identical and not reported. -/
theorem currentYear_withHolder_noop (y : Nat) (orig : List Line) (l : Line)
    (hm : firstCopyrightLine orig = some l) (hy : searchCopyright l = some y)
    (hj : containsSub jaegerTok l = true) :
    update_go_license y orig = Except.ok (orig, false) := by
  refine update_of_noop y orig ?_
  rw [scanLoop_of_first y orig l hm, hj]

theorem currentYear_withHolder_noop_witness :
    update_go_license 2025 [jaegerCurLine, pkgLine] =
      Except.ok ([jaegerCurLine, pkgLine], false) :=
  currentYear_withHolder_noop 2025 [jaegerCurLine, pkgLine] jaegerCurLine
    (by decide) (by decide) (by decide)

/-- C7: a first-5-lines copyright match showing a past year whose line
contains the holder token is left unchanged and unreported: the year is
never silently corrected (the year-rewrite path is commented out in the
source). -/
theorem pastYear_withHolder_noop (y yr : Nat) (orig : List Line) (l : Line)
    (hm : firstCopyrightLine orig = some l) (hy : searchCopyright l = some yr)
    (hne : yr ≠ y) (hj : containsSub jaegerTok l = true) :
    update_go_license y orig = Except.ok (orig, false) := by
  refine update_of_noop y orig ?_
  rw [scanLoop_of_first y orig l hm, hj]

theorem pastYear_withHolder_noop_witness :
    update_go_license 2025 [jaegerOldLine, pkgLine] =
      Except.ok ([jaegerOldLine, pkgLine], false) :=
  pastYear_withHolder_noop 2025 2019 [jaegerOldLine, pkgLine] jaegerOldLine
    (by decide) (by decide) (by decide) (by decide)

/-- C4 counterexample: the claim says a line with uppercase `(C)` is not
detected; because the whole regex is compiled with re.I, the literal `c`
inside the parentheses is case-folded too, and `Copyright (C) 2020` is
detected. -/
theorem uppercaseC_detected_counterexample :
    searchCopyright ("Copyright (C) 2020".toList) = some 2020 := by decide

/-- C4 (amended): detection is case-insensitive on the entire pattern,
including the word Copyright and the `c` of the `(c)` token; the literal
parentheses themselves must be present. -/
theorem copyright_detection_caseFold :
    searchCopyright ("copyright (c) 2020".toList) = some 2020 ∧
    searchCopyright ("Copyright (C) 2020".toList) = some 2020 ∧
    searchCopyright ("COPYRIGHT (C) 2020".toList) = some 2020 ∧
    searchCopyright ("cOpYrIgHt (c) 1999".toList) = some 1999 ∧
    searchCopyright ("Copyright c) 2020".toList) = none ∧
    searchCopyright ("Copyright [c] 2020".toList) = none := by decide

/-- C5 counterexample: line index 1 of the license text is blank; the
claim's formula (trim the text line, then apply the prefix `// `, then LF)
would give `// ` + LF, but the derived template line is `//` + LF: the
comprehension strips the assembled line, removing the prefix's trailing
space as well. -/
theorem template_blankLine_counterexample :
    (licenseBlobLines 2025).get? 1 = some [] ∧
    (LICENSE_BLOB_LINES_GO 2025).get? 1 = some ("//\n".toList) ∧
    (LICENSE_BLOB_LINES_GO 2025).get? 1 ≠
      some ("// ".toList ++ rstripL [] ++ ['\n']) := by decide

/-- C5 (amended): each derived template line is the comment prefix plus the
license-text line, trimmed of leading and trailing whitespace as a whole,
with LF appended.  Evaluated: non-blank lines keep `// ` before their text,
while every blank license line yields the bare `//` (no trailing space). -/
theorem template_lines_explicit (y : Nat) :
    LICENSE_BLOB_LINES_GO y = goHead y :: goTail ∧
    goTail.get? 0 = some ("//\n".toList) ∧
    goTail.get? 4 = some ("//\n".toList) ∧
    goTail.get? 6 = some ("//\n".toList) :=
  ⟨LBLG_eq y, by decide, by decide, by decide⟩

/-- C6 counterexample: the empty file has no copyright match in its first
5 lines, yet it does not get the full header: the insertion helper crashes
with IndexError, so the universally quantified claim fails at the empty
file. -/
theorem noMatch_emptyFile_counterexample :
    update_go_license 2025 [] ≠
      Except.ok (LICENSE_BLOB_LINES_GO 2025 ++ [['\n']], true) ∧
    update_go_license 2025 [] = Except.error PyErr.indexError := by
  refine ⟨by decide, rfl⟩

/-- C6 (amended): for every file with at least one line and no copyright
match in its first 5 lines, the full header block plus one blank separator
line is inserted at the top; when the first line contains the
generated-file marker the output is marker line, blank line, full header
block, blank line, then the remaining original lines.  The file is
reported changed. -/
theorem noMatch_insertsFullHeader (y : Nat) (l0 : Line) (rest : List Line)
    (h : firstCopyrightLine (l0 :: rest) = none) :
    update_go_license y (l0 :: rest) =
      Except.ok ((if containsSub genMarker l0 = true
        then l0 :: ['\n'] :: ((LICENSE_BLOB_LINES_GO y ++ [['\n']]) ++ rest)
        else (LICENSE_BLOB_LINES_GO y ++ [['\n']]) ++ (l0 :: rest)), true) := by
  have hsc := scanLoop_of_nomatch y (l0 :: rest) h
  by_cases hm : containsSub genMarker l0 = true
  · rw [if_pos hm]
    exact update_of_full_marker y l0 rest (by rw [hsc]) hm
  · rw [if_neg hm]
    exact update_of_full_nomarker y l0 rest (by rw [hsc]) (by simpa using hm)

theorem noMatch_insertsFullHeader_witness :
    update_go_license 2025 [genLine, pkgLine] =
      Except.ok (genLine :: ['\n'] :: ((LICENSE_BLOB_LINES_GO 2025 ++ [['\n']]) ++ [pkgLine]),
        true) := by
  rw [noMatch_insertsFullHeader 2025 genLine [pkgLine] (by decide)]
  rw [if_pos (by decide : containsSub genMarker genLine = true)]

/-- C3: for a past-year match without the holder token and no marker on the
first line, the code splices the characters of the first template line at
position 0 (Python string iteration); the rewritten byte content is exactly
that one line followed by the original content unchanged, and the file is
reported changed. -/
theorem pastYear_noHolder_singleLine (y yr : Nat) (l0 l : Line) (rest : List Line)
    (hm : firstCopyrightLine (l0 :: rest) = some l)
    (hy : searchCopyright l = some yr) (hne : yr ≠ y)
    (hj : containsSub jaegerTok l = false)
    (hmk : containsSub genMarker l0 = false) :
    update_go_license y (l0 :: rest) =
      Except.ok ((goHead y).map (fun c => [c]) ++ (l0 :: rest), true) ∧
    ((goHead y).map (fun c => [c]) ++ (l0 :: rest)).flatten =
      goHead y ++ (l0 :: rest).flatten := by
  refine ⟨?_, by rw [List.flatten_append, flatten_map_singleton]⟩
  have hsc : scanLoop y ((l0 :: rest).take 5) = (true, false) := by
    rw [scanLoop_of_first y (l0 :: rest) l hm, hj]
  rw [update_of_single_nomarker y l0 rest hsc hmk, headLine_LBLG]

theorem pastYear_noHolder_singleLine_witness :
    update_go_license 2025 [otherCorpLine, pkgLine] =
      Except.ok ((goHead 2025).map (fun c => [c]) ++ [otherCorpLine, pkgLine], true) ∧
    ((goHead 2025).map (fun c => [c]) ++ [otherCorpLine, pkgLine]).flatten =
      goHead 2025 ++ [otherCorpLine, pkgLine].flatten :=
  pastYear_noHolder_singleLine 2025 2019 otherCorpLine otherCorpLine [pkgLine]
    (by decide) (by decide) (by decide) (by decide) (by decide)

/-- C2: for a file whose first line contains the generated-file marker and
whose decision is the single-line notice, the claim (and the spec's
insertion step) says a blank line and the notice are inserted after the
marker and the file is reported changed.  The code instead crashes: the
single-line path passes a bare string to `replace`, and the marker branch
evaluates `['\n'] + header_lines`, a list-plus-str concatenation that
raises an uncaught TypeError; nothing is written. -/
theorem markerSingleLine_typeError :
    firstCopyrightLine genAcmeFile = some ("// Copyright (c) 2019 Acme Corp\n".toList) ∧
    containsSub genMarker genLine = true ∧
    containsSub jaegerTok ("// Copyright (c) 2019 Acme Corp\n".toList) = false ∧
    update_go_license 2025 genAcmeFile = Except.error PyErr.typeError := by
  refine ⟨by decide, by decide, by decide, by decide⟩

/-! ### C9: the frame property -/

theorem take5_append_take (a repl : List Line) (h5 : 5 ≤ a.length) :
    (a.take 5 ++ repl).take 5 = a.take 5 := by
  rw [List.take_append_of_le_length (by rw [List.length_take]; omega), List.take_take]
  simp

theorem take5_cons_form (l0 : Line) (rest repl : List Line) :
    (l0 :: rest).take 5 ++ repl = l0 :: (rest.take 4 ++ repl) := by
  simp [List.take_succ_cons]

/-- C9: lines at index 5 and beyond are never scanned and are preserved in
order, shifted down by the number of inserted lines.  First conjunct: the
output's tail beyond the (possibly enlarged) head region is exactly the
input's tail beyond index 5.  Second conjunct: replacing everything beyond
the first 5 lines changes neither the decision, the report flag, nor the
rewritten head — the replacement tail is carried through untouched. -/
theorem frame_beyond_five (y : Nat) (orig out : List Line) (ch : Bool)
    (h : update_go_license y orig = Except.ok (out, ch)) :
    out.drop (5 + (out.length - orig.length)) = orig.drop 5 ∧
    ∀ repl : List Line, 5 ≤ orig.length →
      update_go_license y (orig.take 5 ++ repl) =
        Except.ok (out.take (5 + (out.length - orig.length)) ++ repl, ch) := by
  rcases update_ok_cases y orig out ch h with
    ⟨hsc, hout, hch⟩ | ⟨l0, rest, hl, hsc, hch, hcase⟩ |
    ⟨l0, rest, hl, hsc, hch, hmk, hout⟩
  · subst hch
    refine ⟨by rw [hout]; simp, ?_⟩
    intro repl h5
    have hsc2 : scanLoop y ((orig.take 5 ++ repl).take 5) = (true, true) := by
      rw [take5_append_take orig repl h5]; exact hsc
    rw [update_of_noop y _ hsc2, hout]
    simp
  · subst hl
    subst hch
    rcases hcase with ⟨hmk, hout⟩ | ⟨hmk, hout⟩
    · subst hout
      have harith : 5 + (((LICENSE_BLOB_LINES_GO y ++ [['\n']]) ++ (l0 :: rest)).length -
          (l0 :: rest).length) = (LICENSE_BLOB_LINES_GO y ++ [['\n']]).length + 5 := by
        simp only [List.length_append]
        omega
      refine ⟨?_, ?_⟩
      · rw [harith, List.drop_append]
      · intro repl h5
        have hsc2 : (scanLoop y (((l0 :: rest).take 5 ++ repl).take 5)).1 = false := by
          rw [take5_append_take (l0 :: rest) repl h5]; exact hsc
        rw [take5_cons_form l0 rest repl] at hsc2 ⊢
        rw [update_of_full_nomarker y l0 (rest.take 4 ++ repl) hsc2 hmk,
          harith, List.take_append]
        simp [List.take_succ_cons, List.append_assoc]
    · subst hout
      have harith : 5 +
          ((l0 :: ['\n'] :: ((LICENSE_BLOB_LINES_GO y ++ [['\n']]) ++ rest)).length -
            (l0 :: rest).length) =
          ((LICENSE_BLOB_LINES_GO y ++ [['\n']]).length + 4) + 1 + 1 := by
        simp only [List.length_cons, List.length_append]
        omega
      refine ⟨?_, ?_⟩
      · rw [harith, List.drop_succ_cons, List.drop_succ_cons, List.drop_append]
        rfl
      · intro repl h5
        have hsc2 : (scanLoop y (((l0 :: rest).take 5 ++ repl).take 5)).1 = false := by
          rw [take5_append_take (l0 :: rest) repl h5]; exact hsc
        rw [take5_cons_form l0 rest repl] at hsc2 ⊢
        rw [update_of_full_marker y l0 (rest.take 4 ++ repl) hsc2 hmk,
          harith, List.take_succ_cons, List.take_succ_cons, List.take_append]
        simp [List.take_succ_cons, List.append_assoc]
  · subst hl
    subst hch
    subst hout
    have harith : 5 +
        (((headLine (LICENSE_BLOB_LINES_GO y)).map (fun c => [c]) ++ (l0 :: rest)).length -
          (l0 :: rest).length) =
        ((headLine (LICENSE_BLOB_LINES_GO y)).map (fun c => [c])).length + 5 := by
      simp only [List.length_append]
      omega
    refine ⟨?_, ?_⟩
    · rw [harith, List.drop_append]
    · intro repl h5
      have hsc2 : scanLoop y (((l0 :: rest).take 5 ++ repl).take 5) = (true, false) := by
        rw [take5_append_take (l0 :: rest) repl h5]; exact hsc
      rw [take5_cons_form l0 rest repl] at hsc2 ⊢
      rw [update_of_single_nomarker y l0 (rest.take 4 ++ repl) hsc2 hmk,
        harith, List.take_append]
      simp [List.take_succ_cons, List.append_assoc]

/-- A 7-line demonstration file for the frame property: a no-match file,
so the full header is inserted in front of it. -/
def sevenLineFile : List Line :=
  [pkgLine, "import bar\n".toList, "\n".toList, "func f() {}\n".toList,
    "\n".toList, "// Copyright (c) 1999 Acme Corp\n".toList, "var x = 1\n".toList]

theorem frame_beyond_five_witness :
    ((LICENSE_BLOB_LINES_GO 2025 ++ [['\n']]) ++ sevenLineFile).drop
        (5 + (((LICENSE_BLOB_LINES_GO 2025 ++ [['\n']]) ++ sevenLineFile).length -
          sevenLineFile.length)) = sevenLineFile.drop 5 ∧
    update_go_license 2025 (sevenLineFile.take 5 ++ [jaegerCurLine]) =
      Except.ok (((LICENSE_BLOB_LINES_GO 2025 ++ [['\n']]) ++ sevenLineFile).take
        (5 + (((LICENSE_BLOB_LINES_GO 2025 ++ [['\n']]) ++ sevenLineFile).length -
          sevenLineFile.length)) ++ [jaegerCurLine], true) := by
  have h := frame_beyond_five 2025 sevenLineFile
    ((LICENSE_BLOB_LINES_GO 2025 ++ [['\n']]) ++ sevenLineFile) true (by decide)
  exact ⟨h.1, h.2 [jaegerCurLine] (by decide)⟩

/-! ### C8: idempotence -/

theorem scanLoop_goHead_any (y : Nat) (t : List Line) :
    scanLoop y (goHead y :: t) = (true, true) := by
  obtain ⟨n, hn⟩ := searchCopyright_goHead y
  rw [scanLoop_cons_some y n _ _ hn, jaeger_goHead]

theorem update_noop_goHead (y : Nat) (t : List Line) :
    update_go_license y (goHead y :: t) = Except.ok (goHead y :: t, false) := by
  refine update_of_noop y _ ?_
  rw [List.take_succ_cons]
  exact scanLoop_goHead_any y _

theorem update_noop_one_then_goHead (y : Nat) (a : Line) (t : List Line)
    (ha : searchCopyright a = none) :
    update_go_license y (a :: goHead y :: t) =
      Except.ok (a :: goHead y :: t, false) := by
  refine update_of_noop y _ ?_
  simp only [List.take_succ_cons]
  rw [scanLoop_cons_none y _ _ ha]
  exact scanLoop_goHead_any y _

theorem update_noop_after_marker (y : Nat) (a b : Line) (t : List Line)
    (ha : searchCopyright a = none) (hb : searchCopyright b = none) :
    update_go_license y (a :: b :: goHead y :: t) =
      Except.ok (a :: b :: goHead y :: t, false) := by
  refine update_of_noop y _ ?_
  simp only [List.take_succ_cons]
  rw [scanLoop_cons_none y _ _ ha, scanLoop_cons_none y _ _ hb]
  exact scanLoop_goHead_any y _

theorem splitLines_header_append (y : Nat) (rest : List Char) :
    splitLines ((LICENSE_BLOB_LINES_GO y ++ [['\n']]).flatten ++ rest) =
      (LICENSE_BLOB_LINES_GO y ++ [['\n']]) ++ splitLines rest :=
  splitLines_flatten_proper _ (properLine_header y) rest

theorem splitLines_header (y : Nat) :
    splitLines ((LICENSE_BLOB_LINES_GO y ++ [['\n']]).flatten) =
      LICENSE_BLOB_LINES_GO y ++ [['\n']] := by
  have h := splitLines_header_append y []
  simpa [splitLines, splitLinesAux] using h

/-- C8: idempotence.  A file is modelled by its byte content; its line list
is `splitLines content`.  If one run succeeds, producing the line list
`out` (whose concatenation is the content on disk afterwards, whether or
not a write happened), then a second run on that content is a no-op: it
computes no change and does not report the file. -/
theorem normalizer_idempotent (y : Nat) (content : List Char) (out : List Line) (ch : Bool)
    (h : update_go_license y (splitLines content) = Except.ok (out, ch)) :
    update_go_license y (splitLines out.flatten) =
      Except.ok (splitLines out.flatten, false) := by
  rcases update_ok_cases y (splitLines content) out ch h with
    ⟨hsc, hout, hch⟩ | ⟨l0, rest, hl, hsc, hch, hcase⟩ |
    ⟨l0, rest, hl, hsc, hch, hmk, hout⟩
  · rw [hout, splitLines_flatten content]
    exact update_of_noop y _ hsc
  · have hsc' : scanLoop y ((splitLines content).take 5) =
        (false, (scanLoop y ((splitLines content).take 5)).2) := by
      rw [← hsc]
    rw [hl, List.take_succ_cons] at hsc'
    have hl0 := (scanLoop_false_inv y l0 (rest.take 4) _ hsc').1
    obtain ⟨hshape, hrest⟩ := splitLines_shape content l0 rest hl
    rcases hcase with ⟨hmk, hout⟩ | ⟨hmk, hout⟩
    · rw [hout, List.flatten_append, splitLines_flatten content,
        splitLines_header_append y content, LBLG_eq y]
      rw [show ((goHead y :: goTail) ++ [['\n']]) ++ splitLines content =
          goHead y :: ((goTail ++ [['\n']]) ++ splitLines content) from by simp]
      exact update_noop_goHead y _
    · rw [hout]
      have hflat : (l0 :: ['\n'] :: ((LICENSE_BLOB_LINES_GO y ++ [['\n']]) ++ rest)).flatten =
          l0 ++ ('\n' :: ((LICENSE_BLOB_LINES_GO y ++ [['\n']]).flatten ++ rest.flatten)) := by
        simp
      rw [hflat]
      rcases hshape with ⟨core, hcore, hnc⟩ | ⟨hnl, hrnil⟩
      · rw [hcore]
        rw [show ((core ++ ['\n']) ++
            ('\n' :: ((LICENSE_BLOB_LINES_GO y ++ [['\n']]).flatten ++ rest.flatten))) =
            (core ++ ['\n']) ++
              (([] ++ ['\n']) ++
                ((LICENSE_BLOB_LINES_GO y ++ [['\n']]).flatten ++ rest.flatten)) from rfl]
        rw [splitLines_proper_cons core hnc _, splitLines_proper_cons [] (by simp) _,
          splitLines_header_append y _, ← hrest]
        simp only [List.nil_append]
        rw [LBLG_eq y]
        rw [show ((goHead y :: goTail) ++ [['\n']]) ++ rest =
            goHead y :: ((goTail ++ [['\n']]) ++ rest) from by simp]
        refine update_noop_after_marker y _ _ _ ?_ searchCopyright_newline
        rw [← hcore]
        exact hl0
      · subst hrnil
        simp only [List.flatten_nil, List.append_nil]
        rw [show (l0 ++ ('\n' :: (LICENSE_BLOB_LINES_GO y ++ [['\n']]).flatten)) =
            (l0 ++ ['\n']) ++ (LICENSE_BLOB_LINES_GO y ++ [['\n']]).flatten from by simp]
        rw [splitLines_proper_cons l0 hnl _, splitLines_header y, LBLG_eq y]
        rw [show (goHead y :: goTail) ++ [['\n']] =
            goHead y :: (goTail ++ [['\n']]) from rfl]
        refine update_noop_one_then_goHead y _ _ ?_
        rw [searchCopyright_append_newline l0]
        exact hl0
  · rw [hout, headLine_LBLG, List.flatten_append, flatten_map_singleton,
      splitLines_flatten content]
    obtain ⟨core, hcore, hnc⟩ := properLine_goHead y
    rw [hcore, splitLines_proper_cons core hnc content, ← hcore]
    exact update_noop_goHead y _

theorem normalizer_idempotent_witness :
    update_go_license 2025
        (splitLines ((LICENSE_BLOB_LINES_GO 2025 ++ [['\n']] ++ [pkgLine]).flatten)) =
      Except.ok
        (splitLines ((LICENSE_BLOB_LINES_GO 2025 ++ [['\n']] ++ [pkgLine]).flatten),
          false) :=
  normalizer_idempotent 2025 "package foo\n".toList
    (LICENSE_BLOB_LINES_GO 2025 ++ [['\n']] ++ [pkgLine]) true (by decide)

end UpdateLicense
